import Mathlib

set_option linter.unusedVariables false

/-!
Verification of the anomaly-detection pipeline core against its
natural-language specification.  The Lean definitions below are a shallow
embedding of the Python modules under `src/`:

* `src/vlm/semantics.py`      → `parse_response`, `heuristic_vlm_fallback`,
                                `infer_defect_label`
* `src/models/mean_diff.py`   → `MeanDiffModel`
* `src/postproc/heatmap.py`   → `normalize_heatmap`
* `src/postproc/mask.py`      → `threshold_heatmap`
* `src/postproc/bboxes.py`    → `mask_to_bboxes`
* `src/risk/rpm.py`           → `lookup_risk`, `lookup_risk_strict`
* `src/risk/policy.py`        → `action_from_risk`
* `src/uncertainty/*.py`      → `combine_confidence`, `requires_human_review`
* `src/pipeline.py`           → `run_pipeline_sample`

Python floats are modelled as exact rationals (`Rat`); all numeric claims
settled here (label vocabulary membership, clamping to [0,1], comparisons
against fixed decimal thresholds, elementwise array formulas) are invariant
under this idealisation.  Strings are Lean `String`s; where the Lean
standard library's string primitives do not reduce in the kernel we use
character-list helpers with identical semantics on Unicode code points.
-/

/-! ## Character/string helpers (kernel-computable models of Python
`str.lower`, substring containment `in`, and `sorted`). -/

/-- ASCII lowercase of one character, as Python `str.lower` acts on the
ASCII range (all labels used by the repository are ASCII). -/
def lowerChar (c : Char) : Char :=
  if 65 ≤ c.toNat ∧ c.toNat ≤ 90 then Char.ofNat (c.toNat + 32) else c

/-- Lowercase a string characterwise (model of Python `str.lower`). -/
def lowerStr (s : String) : String :=
  ⟨s.data.map lowerChar⟩

/-- Does the character list `hay` start with `needle`? -/
def startsWithChars : List Char → List Char → Bool
  | [], _ => true
  | _ :: _, [] => false
  | a :: as, b :: bs => (a == b) && startsWithChars as bs

/-- Substring containment on character lists (model of Python `in`). -/
def subInChars (needle : List Char) : List Char → Bool
  | [] => needle.isEmpty
  | b :: bs => startsWithChars needle (b :: bs) || subInChars needle bs

/-- Model of the Python expression `needle in hay` on strings. -/
def strContains (needle hay : String) : Bool :=
  subInChars needle.data hay.data

/-- Code-point lexicographic comparison (Python string `<=`). -/
def lexLeChars : List Char → List Char → Bool
  | [], _ => true
  | _ :: _, [] => false
  | a :: as, b :: bs =>
    if a.toNat < b.toNat then true
    else if b.toNat < a.toNat then false
    else lexLeChars as bs

/-- String comparison used by Python `sorted` on labels. -/
def strLe (a b : String) : Bool :=
  lexLeChars a.data b.data

/-- Insert into a sorted list of strings (ascending). -/
def insertStr (x : String) : List String → List String
  | [] => [x]
  | y :: ys => if strLe x y then x :: y :: ys else y :: insertStr x ys

/-- Insertion sort on strings.  Python `sorted` is a stable ascending sort;
on a total order whose ties are equal elements the result coincides with
this insertion sort. -/
def sortedStrings : List String → List String
  | [] => []
  | x :: xs => insertStr x (sortedStrings xs)

/-- Characterwise truncation, model of the Python slice `s[:n]` (Python
slices strings by code points). -/
def takeStr (s : String) (n : Nat) : String :=
  ⟨s.data.take n⟩

/-! ## `src/vlm/semantics.py` -/

/-- Result record of the semantic labeler (`VLMResult` dataclass). -/
structure VLMResult where
  defect_label : String
  evidence : List String
  confidence : Rat
deriving Repr, DecidableEq

/-- Outcome of the `json.loads`-based extraction inside `_parse_response`.
`fail` models any exception raised in the `try` block; `noJson` models a
response text with no well-bracketed JSON object (the `start/end` scan
finds nothing, so the defaults survive); `ok` models a successfully decoded
payload, with the stringified `defect_label`, the stringified `evidence`
entries (before the `[:3]` truncation) and the parsed `confidence`. -/
inductive ParseOutcome where
  | fail : ParseOutcome
  | noJson : ParseOutcome
  | ok : String → List String → Rat → ParseOutcome

/-- Shared tail of `_parse_response`: the vocabulary check against
`set(label_set) | {unknown_label}` followed by the confidence clamp. -/
def validate_label (unknown_label : String) (label_set : List String)
    (label : String) (evidence : List String) (confidence : Rat) : VLMResult :=
  if label_set.contains label || label == unknown_label then
    VLMResult.mk label evidence (max 0 (min 1 confidence))
  else
    VLMResult.mk unknown_label
      ["Model label \x27" ++ label ++ "\x27 is outside fixed label set."] 0

/-- Model of `_parse_response` from `src/vlm/semantics.py`.  The JSON
decoding itself is external-library behaviour, abstracted by the
`ParseOutcome` argument; everything after it is translated directly. -/
def parse_response (text : String) (unknown_label : String)
    (label_set : List String) (outcome : ParseOutcome) : VLMResult :=
  match outcome with
  | ParseOutcome.fail =>
      VLMResult.mk unknown_label [takeStr text 200] 0
  | ParseOutcome.noJson =>
      validate_label unknown_label label_set unknown_label [] 0
  | ParseOutcome.ok label evidence confidence =>
      validate_label unknown_label label_set label (evidence.take 3) confidence

/-- Evidence string built by the f-string in `_heuristic_vlm_fallback`
(the numeric formatting differs from Python `%.3f` only in presentation;
no claim inspects this text). -/
def geomNote (anomaly_score : Rat) (bbox_count : Nat) (mask_ratio : Rat) : String :=
  "Anomaly score=" ++ toString anomaly_score.num ++ "/" ++ toString anomaly_score.den ++
    ", bbox_count=" ++ toString bbox_count ++
    ", mask_ratio=" ++ toString mask_ratio.num ++ "/" ++ toString mask_ratio.den ++ "."

/-- Model of `_heuristic_vlm_fallback` from `src/vlm/semantics.py`. -/
def heuristic_vlm_fallback (label_set : List String) (unknown_label : String)
    (anomaly_score : Rat) (bbox_count : Nat) (mask_ratio : Rat) : VLMResult :=
  if label_set.isEmpty then
    VLMResult.mk unknown_label ["No configured label set."] 0
  else if anomaly_score < 3/20 ∧ bbox_count = 0 then
    VLMResult.mk unknown_label ["No clear anomaly regions detected."] (1/4)
  else
    let sorted_labels := sortedStrings label_set
    let first := sorted_labels.headD unknown_label
    let label :=
      if 3 ≤ bbox_count ∧ 1/20 ≤ mask_ratio then
        (sorted_labels.find? (fun x =>
          strContains ("contam") (lowerStr x) || strContains ("stain") (lowerStr x))).getD first
      else if bbox_count ≤ 1 ∧ mask_ratio < 1/50 then
        (sorted_labels.find? (fun x =>
          strContains ("small") (lowerStr x) || strContains ("scratch") (lowerStr x))).getD first
      else
        (sorted_labels.find? (fun x =>
          strContains ("large") (lowerStr x) || strContains ("crack") (lowerStr x))).getD first
    let conf := max (3/10) (min (17/20)
      (9/20 + 7/20 * min 1 anomaly_score + 3/20 * min 1 (mask_ratio * 5)))
    VLMResult.mk label
      [geomNote anomaly_score bbox_count mask_ratio,
       "Label selected from fixed label set using deterministic geometry rules."]
      conf

/-- Model of `infer_defect_label` from `src/vlm/semantics.py`.  The
environment is abstracted by three parameters: `image` (`some` iff an
image was passed), `runtime_available` (whether `torch`/`transformers`
imported), and, for the model-backed path, the generated text together
with its `ParseOutcome`. -/
def infer_defect_label (category : String) (label_set : List String)
    (unknown_label : String) (roi_note : String) (image : Option Unit)
    (anomaly_score : Rat) (bbox_count : Nat) (mask_ratio : Rat)
    (runtime_available : Bool) (model_text : String)
    (model_outcome : ParseOutcome) : VLMResult :=
  match image with
  | none =>
      heuristic_vlm_fallback label_set unknown_label anomaly_score bbox_count mask_ratio
  | some _ =>
      if runtime_available = false then
        let fallback :=
          heuristic_vlm_fallback label_set unknown_label anomaly_score bbox_count mask_ratio
        VLMResult.mk fallback.defect_label
          (fallback.evidence ++
            ["Full VLM runtime unavailable; fallback semantic classifier used.", roi_note])
          fallback.confidence
      else
        parse_response model_text unknown_label label_set model_outcome

/-! ## `src/models/mean_diff.py`

Images and per-pixel statistics are modelled as nested lists
(rows × columns × channels of exact rationals); `shape3` returns the numpy
shape when the nesting is rectangular (as `np.asarray` of a decoded image
always is). -/

abbrev Arr2 := List (List Rat)

abbrev Arr3 := List (List (List Rat))

/-- Numpy shape of a rank-3 nested list, when rectangular. -/
def shape3 (a : Arr3) : Option (Nat × Nat × Nat) :=
  let W := (a.headD []).length
  let C := ((a.headD []).headD []).length
  if a.all (fun row => row.length == W && row.all (fun px => px.length == C)) then
    some (a.length, W, C)
  else none

/-- Numpy shape of a rank-2 nested list, when rectangular. -/
def shape2 (a : Arr2) : Option (Nat × Nat) :=
  let W := (a.headD []).length
  if a.all (fun row => row.length == W) then some (a.length, W) else none

/-- Elementwise ternary zip (numpy broadcasting of an elementwise formula
over three same-shape arrays). -/
def zip3With (f : α → β → γ → δ) : List α → List β → List γ → List δ
  | a :: as, b :: bs, c :: cs => f a b c :: zip3With f as bs cs
  | _, _, _ => []

/-- Model of `np.max` for the nonempty arrays the pipeline produces
(`np.max` raises on an empty array; the `0` default is never reached from
a fitted model, whose shapes are those of actual images). -/
def maxListRat : List Rat → Rat
  | [] => 0
  | x :: xs => xs.foldl max x

/-- Model of `np.min`, same conventions as `maxListRat`. -/
def minListRat : List Rat → Rat
  | [] => 0
  | x :: xs => xs.foldl min x

/-- Entry of a rank-3 array at (row, column, channel). -/
def get3 (a : Arr3) (y x c : Nat) : Rat :=
  ((a.getD y []).getD x []).getD c 0

/-- Entry of a rank-2 array at (row, column). -/
def get2 (a : Arr2) (y x : Nat) : Rat :=
  (a.getD y []).getD x 0

/-- Fitted state of `MeanDiffModel` (`src/models/mean_diff.py`): `eps` from
the constructor, `mean`/`std`/`shape` populated by `fit` (`None` before).
`fit` itself computes a per-pixel mean and population standard deviation of
the training stack; its output is quantified over here through the shape
hypotheses, since the square root it takes has no exact rational form. -/
structure MeanDiffModel where
  eps : Rat
  mean : Option Arr3
  std : Option Arr3
  shape : Option (Nat × Nat × Nat)
deriving Repr

/-- Model of `MeanDiffModel.infer`, state-passing: the returned model is
the state of `self` after the call (the method body never assigns to
`self`, so it is returned unchanged along every path). -/
def MeanDiffModel.inferSt (m : MeanDiffModel) (img : Arr3) :
    Except String (Rat × Arr2) × MeanDiffModel :=
  match m.mean, m.std with
  | some mn, some sd =>
    if shape3 img ≠ m.shape then
      (Except.error ("Image size mismatch."), m)
    else
      let z := zip3With (fun irow mrow srow =>
        zip3With (fun ipx mpx spx =>
          zip3With (fun x mu s => |x - mu| / (s + m.eps)) ipx mpx spx) irow mrow srow)
        img mn sd
      let heatmap := z.map (fun row => row.map (fun px => px.sum / (px.length : Rat)))
      let score := maxListRat heatmap.flatten
      (Except.ok (score, heatmap), m)
  | _, _ => (Except.error ("Model not fitted."), m)

/-- The value returned by `MeanDiffModel.infer`. -/
def MeanDiffModel.infer (m : MeanDiffModel) (img : Arr3) : Except String (Rat × Arr2) :=
  (m.inferSt img).1

/-! ## `src/postproc/heatmap.py` -/

/-- Model of `normalize_heatmap`. -/
def normalize_heatmap (hm : Arr2) (method : String) : Except String Arr2 :=
  if method == "minmax" then
    let vmin := minListRat hm.flatten
    let vmax := maxListRat hm.flatten
    if vmax - vmin < 1/1000000000000 then
      Except.ok (hm.map (fun row => row.map (fun _ => 0)))
    else
      Except.ok (hm.map (fun row => row.map (fun x => (x - vmin) / (vmax - vmin))))
  else
    Except.error ("Unknown normalize method: " ++ method)

/-! ## `src/postproc/mask.py` -/

/-- Insert into an ascending list of rationals. -/
def insertRat (x : Rat) : List Rat → List Rat
  | [] => [x]
  | y :: ys => if x ≤ y then x :: y :: ys else y :: insertRat x ys

/-- Ascending insertion sort (the sorting inside `np.percentile`). -/
def sortedRats : List Rat → List Rat
  | [] => []
  | x :: xs => insertRat x (sortedRats xs)

/-- Model of `np.percentile(hm, q)` with numpy's default linear
interpolation: virtual rank `q/100 * (n-1)` into the sorted flattened
values, interpolating between the bracketing entries. -/
def np_percentile (hm : Arr2) (q : Rat) : Except String Rat :=
  if q < 0 ∨ 100 < q then
    Except.error ("Percentiles must be in the range [0, 100]")
  else if hm.flatten.isEmpty then
    Except.error ("zero-size array reduction has no identity")
  else
    let s := sortedRats hm.flatten
    let n := s.length
    let rank := q / 100 * ((n : Rat) - 1)
    let i := (⌊rank⌋).toNat
    let lo := s.getD i 0
    let hi := s.getD (min (i + 1) (n - 1)) 0
    Except.ok (lo + (rank - (i : Rat)) * (hi - lo))

/-- Model of `threshold_heatmap`: binary mask of `hm >= thresh`. -/
def threshold_heatmap (hm : Arr2) (method : String) (value : Rat)
    (percentile : Rat) : Except String (List (List Nat)) :=
  if method == "fixed" then
    Except.ok (hm.map (fun row => row.map (fun x => if value ≤ x then 1 else 0)))
  else if method == "percentile" then
    match np_percentile hm percentile with
    | Except.error e => Except.error e
    | Except.ok t =>
      Except.ok (hm.map (fun row => row.map (fun x => if t ≤ x then 1 else 0)))
  else
    Except.error ("Unknown threshold method: " ++ method)

/-! ## `src/postproc/bboxes.py`

`skimage.measure.label` is called with its default connectivity, which for
a 2-D input is full (8-)connectivity; labels are assigned in raster-scan
order of each component's first pixel, and `regionprops` enumerates
regions in label order.  The embedding computes each component as the
adjacency-closure of its first raster pixel inside the foreground set. -/

/-- 8-neighbourhood adjacency of two distinct pixels (Chebyshev distance
at most 1). -/
def adj8 (p q : Nat × Nat) : Bool :=
  decide (p ≠ q) && decide (max p.1 q.1 - min p.1 q.1 ≤ 1)
    && decide (max p.2 q.2 - min p.2 q.2 ≤ 1)

/-- One step of component growth: add every foreground pixel adjacent to
the current set. -/
def growStep (fg cur : Finset (Nat × Nat)) : Finset (Nat × Nat) :=
  cur ∪ fg.filter (fun q => ∃ p ∈ cur, adj8 p q = true)

/-- The connected component of `p` in the foreground set `fg`: saturating
the growth step (at most `fg.card` strict growths are possible). -/
def reach (fg : Finset (Nat × Nat)) (p : Nat × Nat) : Finset (Nat × Nat) :=
  (growStep fg)^[fg.card] {p}

/-- Half-open bounding box `[x_min, y_min, x_max, y_max]` of a component,
as `mask_to_bboxes` emits it from `region.bbox = (minr, minc, maxr, maxc)`. -/
def bboxOf (comp : Finset (Nat × Nat)) : List Nat :=
  ((comp.image Prod.snd).min.untop' 0) :: ((comp.image Prod.fst).min.untop' 0) ::
    ((comp.image Prod.snd).max.unbot' 0 + 1) :: [(comp.image Prod.fst).max.unbot' 0 + 1]

/-- Pixel area of an emitted half-open box. -/
def boxArea : List Nat → Nat
  | x_min :: y_min :: x_max :: [y_max] => (x_max - x_min) * (y_max - y_min)
  | _ => 0

/-- Foreground pixels of a 0/1 mask in raster-scan order. -/
def rasterPixels (mask : List (List Nat)) : List (Nat × Nat) :=
  (List.range mask.length).flatMap (fun r =>
    (List.range (mask.getD r []).length).filterMap (fun c =>
      if 0 < (mask.getD r []).getD c 0 then some (r, c) else none))

/-- The foreground of a mask as a pixel set (`mask > 0`). -/
def foregroundPixels (mask : List (List Nat)) : Finset (Nat × Nat) :=
  (rasterPixels mask).toFinset

/-- Model of `mask_to_bboxes`: scan raster pixels; each unvisited
foreground pixel starts a new component (its adjacency closure), which is
emitted when its pixel count reaches `min_area`. -/
def mask_to_bboxes (mask : List (List Nat)) (min_area : Nat) : List (List Nat) :=
  let fg := foregroundPixels mask
  ((rasterPixels mask).foldl (fun acc p =>
    if p ∈ acc.1 then acc
    else
      let comp := reach fg p
      (acc.1 ∪ comp, if min_area ≤ comp.card then acc.2 ++ [bboxOf comp] else acc.2))
    ((∅ : Finset (Nat × Nat)), ([] : List (List Nat)))).2

/-- One adjacency hop between foreground pixels (specification-level
relation used to state what a connected component is). -/
def connStep (fg : Finset (Nat × Nat)) (a b : Nat × Nat) : Prop :=
  a ∈ fg ∧ b ∈ fg ∧ adj8 a b = true

/-- Connectivity inside the foreground: reflexive-transitive closure of
single adjacency hops. -/
def conn (fg : Finset (Nat × Nat)) : (Nat × Nat) → (Nat × Nat) → Prop :=
  Relation.ReflTransGen (connStep fg)

/-- `comp` is exactly the connected component of some foreground pixel of
`fg`: the set of foreground pixels connected to it. -/
def IsComponentOf (comp fg : Finset (Nat × Nat)) : Prop :=
  ∃ p ∈ fg, ∀ q, q ∈ comp ↔ q ∈ fg ∧ conn fg p q

/-! ## `src/risk/rpm.py` -/

/-- One RPM table entry.  Python rows are dicts read with `.get`, so every
field is optional (`none` models an absent key, read back as `None`). -/
structure RpmRow where
  severity : Option Int
  occurrence : Option Int
  detection : Option Int
  risk_score : Option Int
  risk_class : Option String
deriving Repr, DecidableEq

/-- Model of `lookup_risk`. -/
def lookup_risk (rpm_table : List RpmRow) (severity occurrence detection : Option Int) :
    Option Int × Option String :=
  match severity, occurrence, detection with
  | some s, some o, some d =>
    match rpm_table.find? (fun row =>
        row.severity == some s && row.occurrence == some o && row.detection == some d) with
    | some row => (row.risk_score, row.risk_class)
    | none => (none, none)
  | _, _, _ => (none, none)

/-- Model of `lookup_risk_strict`. -/
def lookup_risk_strict (rpm_table : List RpmRow)
    (severity occurrence detection : Option Int) : Option Int × String :=
  match lookup_risk rpm_table severity occurrence detection with
  | (some score, some risk_class) => (some score, risk_class)
  | _ => (none, "REVIEW_REQUIRED")

/-! ## `src/risk/policy.py` -/

/-- Model of `action_from_risk`.  Python dicts with unique keys are
modelled as association lists (`List.lookup` returns the first binding). -/
def action_from_risk (risk_class : Option String)
    (mapping : List (String × String)) : Option String :=
  match risk_class with
  | none => mapping.lookup ("REVIEW_REQUIRED")
  | some c =>
    match mapping.lookup c with
    | some a => some a
    | none => mapping.lookup ("REVIEW_REQUIRED")

/-! ## `src/uncertainty/confidence.py` and `src/uncertainty/rules.py` -/

/-- Model of `combine_confidence`. -/
def combine_confidence (anomaly_conf vlm_conf : Rat) (method : String) :
    Except String Rat :=
  if method == "min" then Except.ok (min anomaly_conf vlm_conf)
  else if method == "mean" then Except.ok ((anomaly_conf + vlm_conf) / 2)
  else Except.error ("Unknown combine method: " ++ method)

/-- Model of `requires_human_review`. -/
def requires_human_review (confidence : Rat) (label unknown_label : String)
    (threshold : Rat) : Bool :=
  if label == unknown_label then true else decide (confidence < threshold)

/-! ## `src/pipeline.py` -/

/-- The configuration fields `run_pipeline` reads (sections `data`,
`labels`, `risk`, `postproc`, `uncertainty`, `paths` of the config dict). -/
structure PipelineCfg where
  category : String
  labels : List (String × List String)
  unknown_label : String
  rpm : List RpmRow
  risk_to_action : List (String × String)
  severity : Option Int
  occurrence : Option Int
  detection : Option Int
  heatmap_normalize : String
  threshold_method : String
  threshold_value : Rat
  threshold_percentile : Rat
  min_area : Nat
  image_threshold : Rat
  combine_method : String
  review_threshold : Rat
  artifacts_dir : String

/-- The per-sample result dict appended to `results` in `run_pipeline`,
field for field. -/
structure PipelineResult where
  image_id : String
  category : String
  image_decision : String
  anomaly_score : Rat
  anomaly_heatmap_path : String
  anomaly_mask_path : String
  bboxes : List (List Nat)
  defect_label : String
  evidence : List String
  risk_score : Option Int
  risk_class : Option String
  action : Option String
  confidence : Rat
  human_review_required : Bool

/-- Model of the body of the per-sample loop of `run_pipeline`
(`src/pipeline.py`): one test image through infer → normalize → threshold
→ boxes → decision → semantic label → risk → action → fused confidence →
review gate.  The artifact writes are collaborator I/O and appear only as
the path strings stored in the result.  `infer_defect_label` is invoked
exactly as in the source: only `category`, the category's label set, the
unknown label, the fixed ROI note and the image are passed, so
`anomaly_score`, `bbox_count` and `mask_ratio` keep their Python defaults
`0.0`, `0`, `0.0`. -/
def run_pipeline_sample (cfg : PipelineCfg) (model : MeanDiffModel) (base : String)
    (image : Arr3) (runtime_available : Bool) (model_text : String)
    (model_outcome : ParseOutcome) : Except String PipelineResult := do
  let sh ← model.infer image
  let score := sh.1
  let heatmap := sh.2
  let heatmap_n ← normalize_heatmap heatmap cfg.heatmap_normalize
  let mask ← threshold_heatmap heatmap_n cfg.threshold_method cfg.threshold_value
    cfg.threshold_percentile
  let bboxes := mask_to_bboxes mask cfg.min_area
  let heatmap_path := cfg.artifacts_dir ++ "/heatmaps/" ++ base ++ "_hm.png"
  let mask_path := cfg.artifacts_dir ++ "/masks/" ++ base ++ "_mask.png"
  let image_decision := if cfg.image_threshold ≤ score then "anomalous" else "normal"
  let vlm_result := infer_defect_label cfg.category
    ((cfg.labels.lookup cfg.category).getD []) cfg.unknown_label
    ("NEEDED FROM USER: ROI selection not implemented.") (some ()) 0 0 0
    runtime_available model_text model_outcome
  let rc := lookup_risk cfg.rpm cfg.severity cfg.occurrence cfg.detection
  let risk_score := rc.1
  let risk_class := rc.2
  let action := action_from_risk risk_class cfg.risk_to_action
  let anomaly_conf := if 0 < cfg.image_threshold then min 1 (score / cfg.image_threshold) else 0
  let confidence ← combine_confidence anomaly_conf vlm_result.confidence cfg.combine_method
  let human_review := requires_human_review confidence vlm_result.defect_label
    cfg.unknown_label cfg.review_threshold
  Except.ok (PipelineResult.mk base cfg.category image_decision score heatmap_path
    mask_path bboxes vlm_result.defect_label vlm_result.evidence risk_score risk_class
    action confidence human_review)

/-! ## Helper lemmas on the string utilities -/

theorem insertStr_ne_nil (x : String) (l : List String) : insertStr x l ≠ [] := by
  cases l with
  | nil => simp [insertStr]
  | cons y ys =>
    unfold insertStr
    split <;> simp

theorem mem_insertStr {a x : String} {l : List String} :
    a ∈ insertStr x l ↔ a = x ∨ a ∈ l := by
  induction l with
  | nil => simp [insertStr]
  | cons y ys ih =>
    unfold insertStr
    split
    · simp
    · simp only [List.mem_cons, ih]
      tauto

theorem mem_sortedStrings {a : String} {l : List String} :
    a ∈ sortedStrings l ↔ a ∈ l := by
  induction l with
  | nil => simp [sortedStrings]
  | cons x xs ih => simp [sortedStrings, mem_insertStr, ih]

theorem sortedStrings_ne_nil {l : List String} (h : l ≠ []) : sortedStrings l ≠ [] := by
  cases l with
  | nil => exact absurd rfl h
  | cons x xs => exact insertStr_ne_nil x (sortedStrings xs)

theorem find_getD_headD_mem (f : String → Bool) (L : List String) (u : String)
    (h : L ≠ []) : (L.find? f).getD (L.headD u) ∈ L := by
  cases L with
  | nil => exact absurd rfl h
  | cons y ys =>
    cases hf : (y :: ys).find? f with
    | some x => exact List.mem_of_find?_eq_some hf
    | none => simp

/-! ## Lemmas on the semantic labeler -/

theorem validate_label_mem (u l : String) (ls : List String) (ev : List String) (c : Rat) :
    (validate_label u ls l ev c).defect_label ∈ ls ∨
      (validate_label u ls l ev c).defect_label = u := by
  unfold validate_label
  by_cases hcond : (ls.contains l || l == u) = true
  · rw [if_pos hcond]
    simp only [Bool.or_eq_true, beq_iff_eq] at hcond
    rcases hcond with h | h
    · exact Or.inl (by simpa using h)
    · exact Or.inr h
  · rw [if_neg hcond]
    exact Or.inr rfl

theorem validate_label_conf (u l : String) (ls : List String) (ev : List String) (c : Rat) :
    0 ≤ (validate_label u ls l ev c).confidence ∧
      (validate_label u ls l ev c).confidence ≤ 1 := by
  unfold validate_label
  by_cases hcond : (ls.contains l || l == u) = true
  · rw [if_pos hcond]
    exact ⟨le_max_left 0 _, max_le (by norm_num) (min_le_left 1 c)⟩
  · rw [if_neg hcond]
    norm_num

theorem parse_response_mem (text u : String) (ls : List String) (o : ParseOutcome) :
    (parse_response text u ls o).defect_label ∈ ls ∨
      (parse_response text u ls o).defect_label = u := by
  cases o with
  | fail => exact Or.inr rfl
  | noJson => exact validate_label_mem u u ls [] 0
  | ok l ev c => exact validate_label_mem u l ls (ev.take 3) c

theorem parse_response_conf (text u : String) (ls : List String) (o : ParseOutcome) :
    0 ≤ (parse_response text u ls o).confidence ∧
      (parse_response text u ls o).confidence ≤ 1 := by
  cases o with
  | fail => constructor <;> norm_num [parse_response]
  | noJson => exact validate_label_conf u u ls [] 0
  | ok l ev c => exact validate_label_conf u l ls (ev.take 3) c

theorem validate_label_evidence (u l : String) (ls : List String) (ev : List String) (c : Rat) :
    (validate_label u ls l ev c).evidence = ev ∨
      (validate_label u ls l ev c).evidence.length = 1 := by
  unfold validate_label
  split
  · exact Or.inl rfl
  · exact Or.inr rfl

theorem parse_response_evidence (text u : String) (ls : List String) (o : ParseOutcome) :
    (parse_response text u ls o).evidence.length ≤ 3 := by
  cases o with
  | fail => simp [parse_response]
  | noJson =>
    show (validate_label u ls u [] 0).evidence.length ≤ 3
    rcases validate_label_evidence u u ls [] 0 with h | h
    · rw [h]
      simp
    · rw [h]
      norm_num
  | ok l ev c =>
    show (validate_label u ls l (ev.take 3) c).evidence.length ≤ 3
    rcases validate_label_evidence u l ls (ev.take 3) c with h | h
    · rw [h, List.length_take]
      exact inf_le_left
    · rw [h]
      norm_num

theorem heuristic_label_mem (ls : List String) (u : String) (s r : Rat) (bc : Nat) :
    (heuristic_vlm_fallback ls u s bc r).defect_label ∈ ls ∨
      (heuristic_vlm_fallback ls u s bc r).defect_label = u := by
  unfold heuristic_vlm_fallback
  by_cases h0 : ls.isEmpty = true
  · rw [if_pos h0]
    exact Or.inr rfl
  · rw [if_neg h0]
    by_cases h1 : s < 3/20 ∧ bc = 0
    · rw [if_pos h1]
      exact Or.inr rfl
    · rw [if_neg h1]
      have hne : sortedStrings ls ≠ [] := sortedStrings_ne_nil (by
        cases ls <;> simp_all)
      dsimp only
      split
      · exact Or.inl (mem_sortedStrings.mp (find_getD_headD_mem _ _ _ hne))
      · split
        · exact Or.inl (mem_sortedStrings.mp (find_getD_headD_mem _ _ _ hne))
        · exact Or.inl (mem_sortedStrings.mp (find_getD_headD_mem _ _ _ hne))

theorem heuristic_conf_bounds (ls : List String) (u : String) (s r : Rat) (bc : Nat) :
    0 ≤ (heuristic_vlm_fallback ls u s bc r).confidence ∧
      (heuristic_vlm_fallback ls u s bc r).confidence ≤ 1 := by
  unfold heuristic_vlm_fallback
  by_cases h0 : ls.isEmpty = true
  · rw [if_pos h0]
    norm_num
  · rw [if_neg h0]
    by_cases h1 : s < 3/20 ∧ bc = 0
    · rw [if_pos h1]
      norm_num
    · rw [if_neg h1]
      dsimp only
      constructor
      · exact le_trans (by norm_num) (le_max_left (3/10) _)
      · exact max_le (by norm_num) (le_trans (min_le_left _ _) (by norm_num))

theorem heuristic_evidence_len (ls : List String) (u : String) (s r : Rat) (bc : Nat) :
    (heuristic_vlm_fallback ls u s bc r).evidence.length ≤ 2 := by
  unfold heuristic_vlm_fallback
  split
  · simp
  · split
    · simp
    · simp

/-! ## Claim theorems on the semantic labeler -/

/-- C1: for every category, fixed label set, unknown label and every other
input — any image presence, any runtime availability, any (possibly
malformed) model output — the semantic labeler returns a `defect_label`
that is a member of the fixed label set or equals the unknown label; this
holds for the defensive parser, the deterministic heuristic fallback, and
the full `infer_defect_label` entry point. -/
theorem C1_semantic_label_in_vocabulary
    (category text roi model_text u : String) (ls : List String)
    (outcome : ParseOutcome) (image : Option Unit) (score ratio : Rat)
    (bc : Nat) (rt : Bool) :
    ((parse_response text u ls outcome).defect_label ∈ ls ∨
      (parse_response text u ls outcome).defect_label = u) ∧
    ((heuristic_vlm_fallback ls u score bc ratio).defect_label ∈ ls ∨
      (heuristic_vlm_fallback ls u score bc ratio).defect_label = u) ∧
    ((infer_defect_label category ls u roi image score bc ratio rt model_text
        outcome).defect_label ∈ ls ∨
      (infer_defect_label category ls u roi image score bc ratio rt model_text
        outcome).defect_label = u) := by
  refine ⟨parse_response_mem text u ls outcome, heuristic_label_mem ls u score ratio bc, ?_⟩
  cases image with
  | none => exact heuristic_label_mem ls u score ratio bc
  | some val =>
    cases rt with
    | false =>
      simp only [infer_defect_label, if_pos rfl]
      exact heuristic_label_mem ls u score ratio bc
    | true =>
      have : (true = false) = False := by simp
      simp only [infer_defect_label, this, if_false]
      exact parse_response_mem model_text u ls outcome

theorem infer_conf_bounds (category roi model_text u : String) (ls : List String)
    (image : Option Unit) (score ratio : Rat) (bc : Nat) (rt : Bool) (o : ParseOutcome) :
    0 ≤ (infer_defect_label category ls u roi image score bc ratio rt model_text o).confidence ∧
      (infer_defect_label category ls u roi image score bc ratio rt model_text o).confidence ≤ 1 := by
  cases image with
  | none => exact heuristic_conf_bounds ls u score ratio bc
  | some v =>
    cases rt with
    | false =>
      simp only [infer_defect_label, if_pos rfl]
      exact heuristic_conf_bounds ls u score ratio bc
    | true =>
      have hcond : (true = false) = False := by simp
      simp only [infer_defect_label, hcond, if_false]
      exact parse_response_conf model_text u ls o

theorem infer_evidence_len (category roi model_text u : String) (ls : List String)
    (image : Option Unit) (score ratio : Rat) (bc : Nat) (rt : Bool) (o : ParseOutcome) :
    (infer_defect_label category ls u roi image score bc ratio rt model_text o).evidence.length ≤ 4 := by
  cases image with
  | none => exact le_trans (heuristic_evidence_len ls u score ratio bc) (by norm_num)
  | some v =>
    cases rt with
    | false =>
      have h := heuristic_evidence_len ls u score ratio bc
      simp [infer_defect_label]
      omega
    | true =>
      have hcond : (true = false) = False := by simp
      simp only [infer_defect_label, hcond, if_false]
      exact le_trans (parse_response_evidence model_text u ls o) (by norm_num)

/-- C8 (amended): every `LabelResult` produced by the semantic labeler has
confidence in [0,1]; the defensive parser emits at most 3 evidence
strings and the heuristic fallback itself at most 2, but the
runtime-unavailable path of `infer_defect_label` appends two further
notes to the fallback evidence, so the entry point guarantees at most 4
evidence strings, not 3. -/
theorem C8_labelresult_bounds
    (category text roi model_text u : String) (ls : List String)
    (outcome : ParseOutcome) (image : Option Unit) (score ratio : Rat)
    (bc : Nat) (rt : Bool) :
    (0 ≤ (parse_response text u ls outcome).confidence ∧
      (parse_response text u ls outcome).confidence ≤ 1 ∧
      (parse_response text u ls outcome).evidence.length ≤ 3) ∧
    (0 ≤ (heuristic_vlm_fallback ls u score bc ratio).confidence ∧
      (heuristic_vlm_fallback ls u score bc ratio).confidence ≤ 1 ∧
      (heuristic_vlm_fallback ls u score bc ratio).evidence.length ≤ 2) ∧
    (0 ≤ (infer_defect_label category ls u roi image score bc ratio rt model_text
        outcome).confidence ∧
      (infer_defect_label category ls u roi image score bc ratio rt model_text
        outcome).confidence ≤ 1 ∧
      (infer_defect_label category ls u roi image score bc ratio rt model_text
        outcome).evidence.length ≤ 4) :=
  ⟨⟨(parse_response_conf text u ls outcome).1, (parse_response_conf text u ls outcome).2,
      parse_response_evidence text u ls outcome⟩,
    ⟨(heuristic_conf_bounds ls u score ratio bc).1, (heuristic_conf_bounds ls u score ratio bc).2,
      heuristic_evidence_len ls u score ratio bc⟩,
    ⟨(infer_conf_bounds category roi model_text u ls image score ratio bc rt outcome).1,
      (infer_conf_bounds category roi model_text u ls image score ratio bc rt outcome).2,
      infer_evidence_len category roi model_text u ls image score ratio bc rt outcome⟩⟩

/-- C8 counterexample: with an image present but the VLM runtime
unavailable, `infer_defect_label` appends two notes to the two evidence
strings of the heuristic fallback, producing an evidence list of length 4
— the claimed bound of at most 3 strings is violated. -/
theorem C8_counterexample :
    (infer_defect_label ("bottle") ["crack"] ("UNKNOWN") ("note") (some ()) 1 2 (1/2)
      false ("") ParseOutcome.fail).evidence.length = 4 ∧
    ¬ ((infer_defect_label ("bottle") ["crack"] ("UNKNOWN") ("note") (some ()) 1 2 (1/2)
      false ("") ParseOutcome.fail).evidence.length ≤ 3) := by
  have h : (infer_defect_label ("bottle") ["crack"] ("UNKNOWN") ("note") (some ()) 1 2 (1/2)
      false ("") ParseOutcome.fail).evidence.length = 4 := by
    norm_num [infer_defect_label, heuristic_vlm_fallback]
  refine ⟨h, ?_⟩
  rw [h]
  norm_num

/-- C7 (amended): on parse failure, or when the model returns a label
outside `fixed_label_set ∪ {unknown_label}`, the model-backed path
degrades to the unknown label with confidence 0 and a descriptive
evidence note.  When the image is absent, however, `infer_defect_label`
does not degrade to the unknown label: it delegates to the deterministic
heuristic fallback, which may return a valid non-unknown label with
positive confidence. -/
theorem C7_degrade_behaviour
    (category text roi model_text u l : String) (ls : List String)
    (ev : List String) (c score ratio : Rat) (bc : Nat) (rt : Bool)
    (outcome : ParseOutcome) (h : l ∉ ls ∧ l ≠ u) :
    parse_response text u ls ParseOutcome.fail =
      VLMResult.mk u [takeStr text 200] 0 ∧
    parse_response text u ls (ParseOutcome.ok l ev c) =
      VLMResult.mk u ["Model label \x27" ++ l ++ "\x27 is outside fixed label set."] 0 ∧
    infer_defect_label category ls u roi none score bc ratio rt model_text outcome =
      heuristic_vlm_fallback ls u score bc ratio := by
  refine ⟨rfl, ?_, rfl⟩
  show validate_label u ls l (ev.take 3) c = _
  unfold validate_label
  have h1 : ls.contains l = false := by simpa using h.1
  have h2 : (l == u) = false := by simpa using h.2
  rw [h1, h2]
  simp

/-- Witness for C7 (amended) at concrete inputs. -/
theorem C7_degrade_behaviour_witness :
    parse_response ("resp") ("UNKNOWN") ["crack"] ParseOutcome.fail =
      VLMResult.mk ("UNKNOWN") [takeStr ("resp") 200] 0 ∧
    parse_response ("resp") ("UNKNOWN") ["crack"] (ParseOutcome.ok ("blob") [] 0) =
      VLMResult.mk ("UNKNOWN")
        ["Model label \x27" ++ "blob" ++ "\x27 is outside fixed label set."] 0 ∧
    infer_defect_label ("bottle") ["crack"] ("UNKNOWN") ("roi") none 1 2 (1/2) true
        ("mt") ParseOutcome.fail =
      heuristic_vlm_fallback ["crack"] ("UNKNOWN") 1 2 (1/2) :=
  C7_degrade_behaviour ("bottle") ("resp") ("roi") ("mt") ("UNKNOWN") ("blob") ["crack"]
    [] 0 1 (1/2) 2 true ParseOutcome.fail ⟨by decide, by decide⟩

/-- C7 counterexample: with the image absent (and a nonempty label set and
non-trivial geometry), `infer_defect_label` returns a non-unknown label
with confidence 17/20, not the unknown label with confidence 0 that the
claim requires for the image-absent case. -/
theorem C7_counterexample :
    (infer_defect_label ("bottle") ["crack"] ("UNKNOWN") ("note") none 1 2 (1/2) true ("")
        ParseOutcome.fail).defect_label = "crack" ∧
    (infer_defect_label ("bottle") ["crack"] ("UNKNOWN") ("note") none 1 2 (1/2) true ("")
        ParseOutcome.fail).defect_label ≠ "UNKNOWN" ∧
    (infer_defect_label ("bottle") ["crack"] ("UNKNOWN") ("note") none 1 2 (1/2) true ("")
        ParseOutcome.fail).confidence = 17/20 ∧
    (infer_defect_label ("bottle") ["crack"] ("UNKNOWN") ("note") none 1 2 (1/2) true ("")
        ParseOutcome.fail).confidence ≠ 0 := by
  have hl : (infer_defect_label ("bottle") ["crack"] ("UNKNOWN") ("note") none 1 2 (1/2)
      true ("") ParseOutcome.fail).defect_label = "crack" := by
    norm_num [infer_defect_label, heuristic_vlm_fallback]
    decide
  have hc : (infer_defect_label ("bottle") ["crack"] ("UNKNOWN") ("note") none 1 2 (1/2)
      true ("") ParseOutcome.fail).confidence = 17/20 := by
    norm_num [infer_defect_label, heuristic_vlm_fallback, min_def, max_def]
  refine ⟨hl, ?_, hc, ?_⟩
  · rw [hl]
    decide
  · rw [hc]
    norm_num

/-! ## Helper lemmas on arrays and `zip3With` -/

theorem getD_mem {α : Type} (l : List α) (i : Nat) (d : α) (h : i < l.length) :
    l.getD i d ∈ l := by
  induction l generalizing i with
  | nil => simp at h
  | cons x xs ih =>
    cases i with
    | zero => simp
    | succ j =>
      simp only [List.getD_cons_succ]
      exact List.mem_cons_of_mem x (ih j (by simpa using h))

theorem zip3With_length {α β γ δ : Type} (f : α → β → γ → δ)
    (a : List α) (b : List β) (c : List γ) :
    (zip3With f a b c).length = min a.length (min b.length c.length) := by
  induction a generalizing b c with
  | nil => simp [zip3With]
  | cons x xs ih =>
    cases b with
    | nil => simp [zip3With]
    | cons y ys =>
      cases c with
      | nil => simp [zip3With]
      | cons z zs =>
        have h := ih ys zs
        simp only [zip3With, List.length_cons, h]
        omega

theorem zip3With_getD {α β γ δ : Type} (f : α → β → γ → δ)
    (a : List α) (b : List β) (c : List γ) (i : Nat)
    (da : α) (db : β) (dc : γ) (dd : δ)
    (ha : i < a.length) (hb : i < b.length) (hc : i < c.length) :
    (zip3With f a b c).getD i dd = f (a.getD i da) (b.getD i db) (c.getD i dc) := by
  induction a generalizing b c i with
  | nil => simp at ha
  | cons x xs ih =>
    cases b with
    | nil => simp at hb
    | cons y ys =>
      cases c with
      | nil => simp at hc
      | cons z zs =>
        cases i with
        | zero => rfl
        | succ j =>
          simp only [zip3With, List.getD_cons_succ]
          exact ih ys zs j (by simpa using ha) (by simpa using hb) (by simpa using hc)

theorem zip3With_mem {α β γ δ : Type} (f : α → β → γ → δ)
    (da : α) (db : β) (dc : γ) {x : δ} {a : List α} {b : List β} {c : List γ}
    (h : x ∈ zip3With f a b c) :
    ∃ i, i < a.length ∧ i < b.length ∧ i < c.length ∧
      x = f (a.getD i da) (b.getD i db) (c.getD i dc) := by
  induction a generalizing b c with
  | nil => simp [zip3With] at h
  | cons p ps ih =>
    cases b with
    | nil => simp [zip3With] at h
    | cons q qs =>
      cases c with
      | nil => simp [zip3With] at h
      | cons r rs =>
        rcases List.mem_cons.mp h with rfl | hmem
        · exact ⟨0, by simp, by simp, by simp, rfl⟩
        · rcases ih hmem with ⟨i, h1, h2, h3, h4⟩
          exact ⟨i + 1, by simpa using h1, by simpa using h2, by simpa using h3,
            by simpa using h4⟩

theorem zip3With_eq_map_range {α β γ δ : Type} (g : α → β → γ → δ)
    (da : α) (db : β) (dc : γ) (p : List α) (q : List β) (r : List γ) (C : Nat)
    (hp : p.length = C) (hq : q.length = C) (hr : r.length = C) :
    zip3With g p q r =
      (List.range C).map (fun i => g (p.getD i da) (q.getD i db) (r.getD i dc)) := by
  induction p generalizing q r C with
  | nil =>
    subst hp
    simp [zip3With]
  | cons x xs ih =>
    cases q with
    | nil => simp at hp hq; omega
    | cons y ys =>
      cases r with
      | nil => simp at hp hr; omega
      | cons z zs =>
        cases C with
        | zero => simp at hp
        | succ n =>
          have hp1 : xs.length = n := by simpa using hp
          have hq1 : ys.length = n := by simpa using hq
          have hr1 : zs.length = n := by simpa using hr
          rw [List.range_succ_eq_map]
          simp only [List.map_cons, List.map_map]
          show g x y z :: zip3With g xs ys zs = _
          rw [ih ys zs n hp1 hq1 hr1]
          simp [Function.comp]

theorem getD_map_lt {α β : Type} (g : α → β) (l : List α) (i : Nat)
    (da : α) (db : β) (h : i < l.length) :
    (l.map g).getD i db = g (l.getD i da) := by
  induction l generalizing i with
  | nil => simp at h
  | cons x xs ih =>
    cases i with
    | zero => rfl
    | succ j =>
      simp only [List.map_cons, List.getD_cons_succ]
      exact ih j (by simpa using h)

theorem foldl_max_mem (xs : List Rat) (init : Rat) :
    xs.foldl max init = init ∨ xs.foldl max init ∈ xs := by
  induction xs generalizing init with
  | nil => exact Or.inl rfl
  | cons x xs ih =>
    rw [List.foldl_cons]
    rcases ih (max init x) with h | h
    · rw [h]
      rcases le_total init x with hle | hle
      · rw [max_eq_right hle]
        exact Or.inr (List.mem_cons_self x xs)
      · rw [max_eq_left hle]
        exact Or.inl rfl
    · exact Or.inr (List.mem_cons_of_mem x h)

theorem le_foldl_max (xs : List Rat) (init : Rat) :
    init ≤ xs.foldl max init ∧ ∀ v ∈ xs, v ≤ xs.foldl max init := by
  induction xs generalizing init with
  | nil => exact ⟨le_refl _, by simp⟩
  | cons x xs ih =>
    rw [List.foldl_cons]
    have h := ih (max init x)
    refine ⟨le_trans (le_max_left init x) h.1, ?_⟩
    intro v hv
    rcases List.mem_cons.mp hv with rfl | hv
    · exact le_trans (le_max_right init v) h.1
    · exact h.2 v hv

theorem maxListRat_mem {l : List Rat} (h : l ≠ []) : maxListRat l ∈ l := by
  cases l with
  | nil => exact absurd rfl h
  | cons x xs =>
    show xs.foldl max x ∈ x :: xs
    rcases foldl_max_mem xs x with h1 | h1
    · rw [h1]
      exact List.mem_cons_self x xs
    · exact List.mem_cons_of_mem x h1

theorem le_maxListRat {l : List Rat} {v : Rat} (hv : v ∈ l) : v ≤ maxListRat l := by
  cases l with
  | nil => simp at hv
  | cons x xs =>
    show v ≤ xs.foldl max x
    rcases List.mem_cons.mp hv with rfl | hv
    · exact (le_foldl_max xs v).1
    · exact (le_foldl_max xs x).2 v hv

theorem shape3_spec {a : Arr3} {H W C : Nat} (h : shape3 a = some (H, W, C)) :
    a.length = H ∧ (∀ row ∈ a, row.length = W ∧ ∀ px ∈ row, px.length = C) := by
  unfold shape3 at h
  by_cases hc : (a.all (fun row =>
      row.length == (a.headD []).length &&
        row.all (fun px => px.length == ((a.headD []).headD []).length))) = true
  · rw [if_pos hc] at h
    have hinj := Option.some_injective _ h
    have hH : a.length = H := congrArg Prod.fst hinj
    have hW : (a.headD []).length = W := congrArg (fun t => t.2.1) hinj
    have hC : ((a.headD []).headD []).length = C := congrArg (fun t => t.2.2) hinj
    refine ⟨hH, ?_⟩
    intro row hrow
    have hr := List.all_eq_true.mp hc row hrow
    have hr1 := (Bool.and_eq_true _ _).mp hr
    refine ⟨by rw [← hW]; exact beq_iff_eq.mp hr1.1, ?_⟩
    intro px hpx
    have hp := List.all_eq_true.mp hr1.2 px hpx
    rw [← hC]
    exact beq_iff_eq.mp hp
  · rw [if_neg hc] at h
    exact absurd h (by simp)

theorem shape2_intro {a : Arr2} {H W : Nat} (hlen : a.length = H)
    (hrows : ∀ row ∈ a, row.length = W) (hH : 0 < H) : shape2 a = some (H, W) := by
  unfold shape2
  have hne : a ≠ [] := by
    intro hnil
    rw [hnil] at hlen
    simp at hlen
    omega
  have hhead : (a.headD []).length = W := by
    cases a with
    | nil => exact absurd rfl hne
    | cons r rs => exact hrows r (List.mem_cons_self r rs)
  have hall : (a.all (fun row => row.length == (a.headD []).length)) = true := by
    apply List.all_eq_true.mpr
    intro row hrow
    rw [hhead, hrows row hrow]
    exact beq_iff_eq.mpr rfl
  rw [if_pos hall, hlen, hhead]

/-! ## Claim theorems on `MeanDiffModel` -/

/-- C2: for every fitted reference model (mean/std/shape populated with a
common shape, default eps 1e-6) and every input image of the fitted shape,
`infer` succeeds and returns a heatmap whose spatial shape equals the
input's spatial shape, whose entry at (y, x) is the channel average of
`|pixel - mean| / (std + 1e-6)`, and a score that is the maximum value of
the heatmap (it occurs in the heatmap and bounds every entry). -/
theorem C2_infer_heatmap_and_score
    (m : MeanDiffModel) (mn sd img : Arr3) (H W C : Nat)
    (hmean : m.mean = some mn) (hstd : m.std = some sd)
    (hshape : m.shape = some (H, W, C))
    (hmn : shape3 mn = some (H, W, C)) (hsd : shape3 sd = some (H, W, C))
    (himg : shape3 img = some (H, W, C))
    (heps : m.eps = 1/1000000)
    (hH : 0 < H) (hW : 0 < W) (hC : 0 < C) :
    ∃ s hm, m.infer img = Except.ok (s, hm) ∧
      shape2 hm = some (H, W) ∧
      (∀ y, y < H → ∀ x, x < W → get2 hm y x =
        ((List.range C).map (fun c =>
          |get3 img y x c - get3 mn y x c| / (get3 sd y x c + 1/1000000))).sum / (C : Rat)) ∧
      s ∈ hm.flatten ∧ (∀ v ∈ hm.flatten, v ≤ s) := by
  obtain ⟨hiL, hiRows⟩ := shape3_spec himg
  obtain ⟨hmL, hmRows⟩ := shape3_spec hmn
  obtain ⟨hsL, hsRows⟩ := shape3_spec hsd
  set z := zip3With (fun irow mrow srow =>
      zip3With (fun ipx mpx spx =>
        zip3With (fun x mu s => |x - mu| / (s + m.eps)) ipx mpx spx) irow mrow srow)
    img mn sd with hz
  set hm := z.map (fun row => row.map (fun px => px.sum / (px.length : Rat))) with hhm
  have hinfer : m.infer img = Except.ok (maxListRat hm.flatten, hm) := by
    unfold MeanDiffModel.infer MeanDiffModel.inferSt
    rw [hmean, hstd]
    dsimp only
    rw [himg, hshape, if_neg (by simp)]
  have hzlen : z.length = H := by
    rw [hz, zip3With_length, hiL, hmL, hsL]
    simp
  have hzrows : ∀ row ∈ z, row.length = W := by
    intro row hrow
    rcases zip3With_mem _ [] [] [] hrow with ⟨i, h1, h2, h3, h4⟩
    rw [h4, zip3With_length]
    have e1 : (img.getD i []).length = W := (hiRows _ (getD_mem img i [] h1)).1
    have e2 : (mn.getD i []).length = W := (hmRows _ (getD_mem mn i [] h2)).1
    have e3 : (sd.getD i []).length = W := (hsRows _ (getD_mem sd i [] h3)).1
    rw [e1, e2, e3]
    simp
  have hhmlen : hm.length = H := by rw [hhm, List.length_map, hzlen]
  have hhmrows : ∀ row ∈ hm, row.length = W := by
    intro row hrow
    rcases List.mem_map.mp hrow with ⟨zr, hzr, rfl⟩
    rw [List.length_map]
    exact hzrows zr hzr
  refine ⟨maxListRat hm.flatten, hm, hinfer, shape2_intro hhmlen hhmrows hH, ?_, ?_, ?_⟩
  · intro y hy x hx
    have hyi : y < img.length := by rw [hiL]; exact hy
    have hym : y < mn.length := by rw [hmL]; exact hy
    have hys : y < sd.length := by rw [hsL]; exact hy
    have hyz : y < z.length := by rw [hzlen]; exact hy
    have hget_hm : hm.getD y [] = (z.getD y []).map (fun px => px.sum / (px.length : Rat)) := by
      rw [hhm]
      exact getD_map_lt _ z y [] [] hyz
    have hty : z.getD y [] = zip3With (fun ipx mpx spx =>
        zip3With (fun xv mu s => |xv - mu| / (s + m.eps)) ipx mpx spx)
        (img.getD y []) (mn.getD y []) (sd.getD y []) := by
      rw [hz]
      exact zip3With_getD _ img mn sd y [] [] [] [] hyi hym hys
    have hiW : (img.getD y []).length = W := (hiRows _ (getD_mem img y [] hyi)).1
    have hmW : (mn.getD y []).length = W := (hmRows _ (getD_mem mn y [] hym)).1
    have hsW : (sd.getD y []).length = W := (hsRows _ (getD_mem sd y [] hys)).1
    have hrowlen : (z.getD y []).length = W := by
      rw [hty, zip3With_length, hiW, hmW, hsW]
      simp
    have hxz : x < (z.getD y []).length := by rw [hrowlen]; exact hx
    have hxi : x < (img.getD y []).length := by rw [hiW]; exact hx
    have hxm : x < (mn.getD y []).length := by rw [hmW]; exact hx
    have hxs : x < (sd.getD y []).length := by rw [hsW]; exact hx
    have hpx : (z.getD y []).getD x [] = zip3With (fun xv mu s => |xv - mu| / (s + m.eps))
        ((img.getD y []).getD x []) ((mn.getD y []).getD x []) ((sd.getD y []).getD x []) := by
      rw [hty]
      exact zip3With_getD _ _ _ _ x [] [] [] [] hxi hxm hxs
    have hiC : ((img.getD y []).getD x []).length = C :=
      (hiRows _ (getD_mem img y [] hyi)).2 _ (getD_mem _ x [] hxi)
    have hmC : ((mn.getD y []).getD x []).length = C :=
      (hmRows _ (getD_mem mn y [] hym)).2 _ (getD_mem _ x [] hxm)
    have hsC : ((sd.getD y []).getD x []).length = C :=
      (hsRows _ (getD_mem sd y [] hys)).2 _ (getD_mem _ x [] hxs)
    unfold get2
    rw [hget_hm, getD_map_lt _ _ x [] 0 hxz, hpx,
      zip3With_eq_map_range _ 0 0 0 _ _ _ C hiC hmC hsC,
      List.length_map, List.length_range, heps]
    simp [get3]
  · apply maxListRat_mem
    have h0 : hm.getD 0 [] ∈ hm := getD_mem hm 0 [] (by rw [hhmlen]; exact hH)
    have hlen0 : (hm.getD 0 []).length = W := hhmrows _ h0
    intro hnil
    have hall := List.flatten_eq_nil_iff.mp hnil
    have h2 := hall _ h0
    rw [h2] at hlen0
    simp at hlen0
    omega
  · intro v hv
    exact le_maxListRat hv

/-- Witness for C2 at a concrete fitted model and image. -/
theorem C2_infer_heatmap_and_score_witness :
    ∃ s hm,
      (MeanDiffModel.mk (1/1000000) (some [[[0]]]) (some [[[1]]]) (some (1, 1, 1))).infer
          [[[2]]] = Except.ok (s, hm) ∧
      shape2 hm = some (1, 1) ∧
      (∀ y, y < 1 → ∀ x, x < 1 → get2 hm y x =
        ((List.range 1).map (fun c =>
          |get3 [[[2]]] y x c - get3 [[[0]]] y x c| /
            (get3 [[[1]]] y x c + 1/1000000))).sum / ((1 : Nat) : Rat)) ∧
      s ∈ hm.flatten ∧ (∀ v ∈ hm.flatten, v ≤ s) :=
  C2_infer_heatmap_and_score
    (MeanDiffModel.mk (1/1000000) (some [[[0]]]) (some [[[1]]]) (some (1, 1, 1)))
    [[[0]]] [[[1]]] [[[2]]] 1 1 1 rfl rfl rfl (by decide) (by decide) (by decide) rfl
    (by decide) (by decide) (by decide)

/-- C9: `infer` is read-only over the fitted model: for every fitted model
and shape-conforming image, the `eps`, `mean`, `std` and `shape` fields of
the model state after the call are those before the call. -/
theorem C9_infer_state_unchanged (m : MeanDiffModel) (mn sd img : Arr3)
    (hmean : m.mean = some mn) (hstd : m.std = some sd)
    (hshape : shape3 img = m.shape) :
    (m.inferSt img).2.eps = m.eps ∧ (m.inferSt img).2.mean = m.mean ∧
      (m.inferSt img).2.std = m.std ∧ (m.inferSt img).2.shape = m.shape := by
  have h2 : (m.inferSt img).2 = m := by
    unfold MeanDiffModel.inferSt
    rw [hmean, hstd]
    dsimp only
    split <;> rfl
  rw [h2]
  exact ⟨rfl, rfl, rfl, rfl⟩

/-- Witness for C9 at a concrete fitted model and image. -/
theorem C9_infer_state_unchanged_witness :
    ((MeanDiffModel.mk (1/1000000) (some [[[0]]]) (some [[[1]]]) (some (1, 1, 1))).inferSt
        [[[2]]]).2.eps =
      (MeanDiffModel.mk (1/1000000) (some [[[0]]]) (some [[[1]]]) (some (1, 1, 1))).eps ∧
    ((MeanDiffModel.mk (1/1000000) (some [[[0]]]) (some [[[1]]]) (some (1, 1, 1))).inferSt
        [[[2]]]).2.mean =
      (MeanDiffModel.mk (1/1000000) (some [[[0]]]) (some [[[1]]]) (some (1, 1, 1))).mean ∧
    ((MeanDiffModel.mk (1/1000000) (some [[[0]]]) (some [[[1]]]) (some (1, 1, 1))).inferSt
        [[[2]]]).2.std =
      (MeanDiffModel.mk (1/1000000) (some [[[0]]]) (some [[[1]]]) (some (1, 1, 1))).std ∧
    ((MeanDiffModel.mk (1/1000000) (some [[[0]]]) (some [[[1]]]) (some (1, 1, 1))).inferSt
        [[[2]]]).2.shape =
      (MeanDiffModel.mk (1/1000000) (some [[[0]]]) (some [[[1]]]) (some (1, 1, 1))).shape :=
  C9_infer_state_unchanged
    (MeanDiffModel.mk (1/1000000) (some [[[0]]]) (some [[[1]]]) (some (1, 1, 1)))
    [[[0]]] [[[1]]] [[[2]]] rfl rfl (by decide)

/-! ## Claim theorems on the risk module -/

/-- C4: `lookup_risk` returns (None, None) whenever any key is None; with
all three keys present it returns the first matching row's
(risk_score, risk_class) exactly, and (None, None) when no row matches;
`lookup_risk_strict` normalises both the None-key and the no-match case to
a null score with risk class REVIEW_REQUIRED. -/
theorem C4_risk_lookup
    (table : List RpmRow) (s o d : Option Int) (sv ov dv : Int) (row : RpmRow) :
    ((s = none ∨ o = none ∨ d = none) → lookup_risk table s o d = (none, none)) ∧
    (table.find? (fun r => r.severity == some sv && r.occurrence == some ov &&
        r.detection == some dv) = some row →
      lookup_risk table (some sv) (some ov) (some dv) = (row.risk_score, row.risk_class)) ∧
    (table.find? (fun r => r.severity == some sv && r.occurrence == some ov &&
        r.detection == some dv) = none →
      lookup_risk table (some sv) (some ov) (some dv) = (none, none)) ∧
    ((s = none ∨ o = none ∨ d = none) →
      lookup_risk_strict table s o d = (none, "REVIEW_REQUIRED")) ∧
    (table.find? (fun r => r.severity == some sv && r.occurrence == some ov &&
        r.detection == some dv) = none →
      lookup_risk_strict table (some sv) (some ov) (some dv) = (none, "REVIEW_REQUIRED")) := by
  refine ⟨?_, ?_, ?_, ?_, ?_⟩
  · intro h
    rcases h with rfl | rfl | rfl
    · cases o <;> cases d <;> rfl
    · cases s <;> cases d <;> rfl
    · cases s <;> cases o <;> rfl
  · intro hf
    simp only [lookup_risk]
    rw [hf]
  · intro hf
    simp only [lookup_risk]
    rw [hf]
  · intro h
    unfold lookup_risk_strict
    rcases h with rfl | rfl | rfl
    · cases o <;> cases d <;> rfl
    · cases s <;> cases d <;> rfl
    · cases s <;> cases o <;> rfl
  · intro hf
    unfold lookup_risk_strict
    simp only [lookup_risk]
    rw [hf]

/-- Witness for C4 against a one-row table. -/
theorem C4_risk_lookup_witness :
    lookup_risk [RpmRow.mk (some 5) (some 3) (some 2) (some 30) (some ("HIGH"))]
        none (some 3) (some 2) = (none, none) ∧
    lookup_risk [RpmRow.mk (some 5) (some 3) (some 2) (some 30) (some ("HIGH"))]
        (some 5) (some 3) (some 2) = (some 30, some ("HIGH")) ∧
    lookup_risk [RpmRow.mk (some 5) (some 3) (some 2) (some 30) (some ("HIGH"))]
        (some 9) (some 3) (some 2) = (none, none) ∧
    lookup_risk_strict [RpmRow.mk (some 5) (some 3) (some 2) (some 30) (some ("HIGH"))]
        none (some 3) (some 2) = (none, "REVIEW_REQUIRED") ∧
    lookup_risk_strict [RpmRow.mk (some 5) (some 3) (some 2) (some 30) (some ("HIGH"))]
        (some 9) (some 3) (some 2) = (none, "REVIEW_REQUIRED") := by
  refine ⟨?_, ?_, ?_, ?_, ?_⟩
  · exact (C4_risk_lookup _ none (some 3) (some 2) 5 3 2
      (RpmRow.mk (some 5) (some 3) (some 2) (some 30) (some ("HIGH")))).1 (Or.inl rfl)
  · exact (C4_risk_lookup _ none none none 5 3 2
      (RpmRow.mk (some 5) (some 3) (some 2) (some 30) (some ("HIGH")))).2.1 (by decide)
  · exact (C4_risk_lookup _ none none none 9 3 2
      (RpmRow.mk (some 5) (some 3) (some 2) (some 30) (some ("HIGH")))).2.2.1 (by decide)
  · exact (C4_risk_lookup _ none (some 3) (some 2) 5 3 2
      (RpmRow.mk (some 5) (some 3) (some 2) (some 30) (some ("HIGH")))).2.2.2.1 (Or.inl rfl)
  · exact (C4_risk_lookup _ none none none 9 3 2
      (RpmRow.mk (some 5) (some 3) (some 2) (some 30) (some ("HIGH")))).2.2.2.2 (by decide)

/-- C5 (amended): provided the mapping contains the key REVIEW_REQUIRED,
`action_from_risk` returns the REVIEW_REQUIRED action when `risk_class` is
None or absent from the mapping, returns the mapped action otherwise, and
never returns an absent action.  (When the mapping lacks REVIEW_REQUIRED
the code returns None — Python `.get` with a None default — rather than
raising, which is what the counterexample exhibits.) -/
theorem C5_action_fallback (mapping : List (String × String)) (rc : Option String)
    (c : String) (a : String) (hrr : mapping.lookup ("REVIEW_REQUIRED") = some a) :
    action_from_risk none mapping = some a ∧
    (∀ v, mapping.lookup c = some v → action_from_risk (some c) mapping = some v) ∧
    (mapping.lookup c = none → action_from_risk (some c) mapping = some a) ∧
    (∃ x, action_from_risk rc mapping = some x) := by
  refine ⟨?_, ?_, ?_, ?_⟩
  · simp only [action_from_risk]
    exact hrr
  · intro v hv
    simp only [action_from_risk]
    rw [hv]
  · intro hc
    simp only [action_from_risk]
    rw [hc]
    exact hrr
  · cases rc with
    | none =>
      refine ⟨a, ?_⟩
      simp only [action_from_risk]
      exact hrr
    | some c2 =>
      cases hl : mapping.lookup c2 with
      | some v2 =>
        refine ⟨v2, ?_⟩
        simp only [action_from_risk]
        rw [hl]
      | none =>
        refine ⟨a, ?_⟩
        simp only [action_from_risk]
        rw [hl]
        exact hrr

/-- Witness for C5 (amended) against a concrete mapping. -/
theorem C5_action_fallback_witness :
    action_from_risk none [("REVIEW_REQUIRED", "review"), ("HIGH", "stop")] =
      some ("review") ∧
    (∀ v, ([("REVIEW_REQUIRED", "review"), ("HIGH", "stop")] :
        List (String × String)).lookup ("HIGH") = some v →
      action_from_risk (some ("HIGH")) [("REVIEW_REQUIRED", "review"), ("HIGH", "stop")] =
        some v) ∧
    (([("REVIEW_REQUIRED", "review"), ("HIGH", "stop")] :
        List (String × String)).lookup ("HIGH") = none →
      action_from_risk (some ("HIGH")) [("REVIEW_REQUIRED", "review"), ("HIGH", "stop")] =
        some ("review")) ∧
    (∃ x, action_from_risk (some ("NONEXISTENT_CLASS"))
      [("REVIEW_REQUIRED", "review"), ("HIGH", "stop")] = some x) :=
  C5_action_fallback [("REVIEW_REQUIRED", "review"), ("HIGH", "stop")]
    (some ("NONEXISTENT_CLASS")) ("HIGH") ("review") (by decide)

/-- C5 counterexample: with a mapping that lacks the key REVIEW_REQUIRED,
`action_from_risk` returns None — an absent action — for a None risk
class, contradicting the claim that it returns `mapping["REVIEW_REQUIRED"]`
and never returns nothing. -/
theorem C5_counterexample :
    action_from_risk none [("HIGH", "stop")] = none ∧
    ¬ ∃ x, action_from_risk none [("HIGH", "stop")] = some x := by
  have h : action_from_risk none [("HIGH", "stop")] = none := by decide
  refine ⟨h, ?_⟩
  rintro ⟨x, hx⟩
  rw [h] at hx
  exact Option.noConfusion hx

/-! ## Lemmas on sorting rationals, and claim C10 -/

theorem length_insertRat (x : Rat) (l : List Rat) : (insertRat x l).length = l.length + 1 := by
  induction l with
  | nil => rfl
  | cons y ys ih =>
    unfold insertRat
    split
    · simp
    · simp [ih]

theorem length_sortedRats (l : List Rat) : (sortedRats l).length = l.length := by
  induction l with
  | nil => rfl
  | cons x xs ih => simp [sortedRats, length_insertRat, ih]

theorem mem_insertRat {a x : Rat} {l : List Rat} : a ∈ insertRat x l ↔ a = x ∨ a ∈ l := by
  induction l with
  | nil => simp [insertRat]
  | cons y ys ih =>
    unfold insertRat
    split
    · simp
    · simp only [List.mem_cons, ih]
      tauto

theorem mem_sortedRats {a : Rat} {l : List Rat} : a ∈ sortedRats l ↔ a ∈ l := by
  induction l with
  | nil => simp [sortedRats]
  | cons x xs ih => simp [sortedRats, mem_insertRat, ih]

/-- C10: thresholding a constant heatmap with the percentile method marks
every pixel as anomalous: any percentile of a constant array equals that
constant, and `hm >= thresh` then holds at every pixel, so the mask is all
ones.  In particular this applies to the all-zero heatmap that
`normalize_heatmap` returns in its degenerate near-constant branch (third
conjunct), so a "no anomaly" zero heatmap thresholded with the percentile
method marks the whole image. -/
theorem C10_percentile_constant_all_ones
    (hm : Arr2) (c v p : Rat)
    (hconst : ∀ row ∈ hm, ∀ x ∈ row, x = c)
    (hne : hm.flatten ≠ []) (hp0 : 0 ≤ p) (hp100 : p ≤ 100) :
    np_percentile hm p = Except.ok c ∧
    threshold_heatmap hm ("percentile") v p =
      Except.ok (hm.map (fun row => row.map (fun _ => 1))) ∧
    (maxListRat hm.flatten - minListRat hm.flatten < 1/1000000000000 →
      normalize_heatmap hm ("minmax") =
        Except.ok (hm.map (fun row => row.map (fun _ => (0 : Rat))))) := by
  have hflatc : ∀ x ∈ hm.flatten, x = c := by
    intro x hx
    rcases List.mem_flatten.mp hx with ⟨row, hrow, hxr⟩
    exact hconst row hrow x hxr
  have hsortc : ∀ x ∈ sortedRats hm.flatten, x = c := fun x hx =>
    hflatc x (mem_sortedRats.mp hx)
  have hn : 0 < (sortedRats hm.flatten).length := by
    rw [length_sortedRats]
    cases hl : hm.flatten with
    | nil => exact absurd hl hne
    | cons a as => simp
  have hperc : np_percentile hm p = Except.ok c := by
    unfold np_percentile
    rw [if_neg (by push_neg; exact ⟨hp0, hp100⟩)]
    rw [if_neg (by simp only [List.isEmpty_iff]; exact hne)]
    dsimp only
    set n := (sortedRats hm.flatten).length with hn_def
    set rank := p / 100 * ((n : Rat) - 1) with hrank_def
    have hnq : (1 : Rat) ≤ (n : Rat) := by exact_mod_cast hn
    have hrank_le : rank ≤ (n : Rat) - 1 := by
      rw [hrank_def]
      have h1 : p / 100 ≤ 1 := by linarith
      have h2 : (0 : Rat) ≤ (n : Rat) - 1 := by linarith
      nlinarith
    have hcast : ((n : Rat) - 1) = (((n : Int) - 1 : Int) : Rat) := by push_cast; ring
    have hfl : ⌊rank⌋ ≤ (n : Int) - 1 := by
      calc ⌊rank⌋ ≤ ⌊((n : Rat) - 1)⌋ := Int.floor_le_floor hrank_le
        _ = (n : Int) - 1 := by rw [hcast, Int.floor_intCast]
    have hi_lt : (⌊rank⌋).toNat < n := by omega
    have hj_lt : min ((⌊rank⌋).toNat + 1) (n - 1) < n := by omega
    have key : ∀ (i j : Nat), i < n → j < n →
        (sortedRats hm.flatten).getD i 0 +
          (rank - (i : Rat)) *
            ((sortedRats hm.flatten).getD j 0 - (sortedRats hm.flatten).getD i 0) = c := by
      intro i j hi hj
      rw [hsortc _ (getD_mem _ i 0 hi), hsortc _ (getD_mem _ j 0 hj)]
      ring
    exact congrArg Except.ok (key _ _ hi_lt hj_lt)
  refine ⟨hperc, ?_, ?_⟩
  · unfold threshold_heatmap
    rw [if_neg (by decide), if_pos (by decide), hperc]
    show Except.ok (hm.map (fun row => row.map (fun x => if c ≤ x then 1 else 0))) = _
    have hmaps : hm.map (fun row => row.map (fun x => if c ≤ x then (1 : Nat) else 0)) =
        hm.map (fun row => row.map (fun _ => 1)) := by
      apply List.map_congr_left
      intro row hrow
      apply List.map_congr_left
      intro x hx
      rw [hconst row hrow x hx, if_pos (le_refl c)]
    rw [hmaps]
  · intro hdeg
    unfold normalize_heatmap
    rw [if_pos (by decide)]
    dsimp only
    rw [if_pos hdeg]

/-- Witness for C10 at the spec's example of a constant heatmap of value 5
with the default 99.5 percentile. -/
theorem C10_percentile_constant_all_ones_witness :
    np_percentile [[5, 5]] (199/2) = Except.ok 5 ∧
    threshold_heatmap [[5, 5]] ("percentile") (1/2) (199/2) =
      Except.ok ([[5, 5]].map (fun row => row.map (fun _ => 1))) ∧
    (maxListRat ([[5, 5]] : Arr2).flatten - minListRat ([[5, 5]] : Arr2).flatten <
        1/1000000000000 →
      normalize_heatmap [[5, 5]] ("minmax") =
        Except.ok (([[5, 5]] : Arr2).map (fun row => row.map (fun _ => (0 : Rat))))) :=
  C10_percentile_constant_all_ones [[5, 5]] 5 (1/2) (199/2)
    (by simp) (by simp) (by norm_num) (by norm_num)

/-! ## Lemmas on connected-component extraction (claim C6) -/

theorem subset_growStep (fg cur : Finset (Nat × Nat)) : cur ⊆ growStep fg cur :=
  Finset.subset_union_left

theorem growStep_subset (fg cur : Finset (Nat × Nat)) (h : cur ⊆ fg) :
    growStep fg cur ⊆ fg :=
  Finset.union_subset h (Finset.filter_subset _ fg)

theorem iterate_reach_subset (fg : Finset (Nat × Nat)) (p : Nat × Nat) (hp : p ∈ fg) :
    ∀ k, (growStep fg)^[k] {p} ⊆ fg := by
  intro k
  induction k with
  | zero => simpa using hp
  | succ i ih =>
    rw [Function.iterate_succ_apply']
    exact growStep_subset fg _ ih

theorem iterate_reach_mono (fg : Finset (Nat × Nat)) (p : Nat × Nat) (k : Nat) :
    (growStep fg)^[k] {p} ⊆ (growStep fg)^[k + 1] {p} := by
  rw [Function.iterate_succ_apply']
  exact subset_growStep fg _

theorem reach_fixpoint (fg : Finset (Nat × Nat)) (p : Nat × Nat) (hp : p ∈ fg) :
    growStep fg (reach fg p) = reach fg p := by
  by_cases hstab : ∃ j, j ≤ fg.card ∧ (growStep fg)^[j + 1] {p} = (growStep fg)^[j] {p}
  · obtain ⟨j, hj, heq⟩ := hstab
    have hstep : ∀ m, (growStep fg)^[j + m] {p} = (growStep fg)^[j] {p} := by
      intro m
      induction m with
      | zero => rfl
      | succ i ih =>
        have hidx : j + (i + 1) = (j + i) + 1 := by omega
        rw [hidx, Function.iterate_succ_apply', ih]
        calc growStep fg ((growStep fg)^[j] {p})
            = (growStep fg)^[j + 1] {p} := (Function.iterate_succ_apply' _ _ _).symm
          _ = (growStep fg)^[j] {p} := heq
    unfold reach
    have hn2 : fg.card = j + (fg.card - j) := by omega
    rw [hn2, hstep (fg.card - j)]
    calc growStep fg ((growStep fg)^[j] {p})
        = (growStep fg)^[j + 1] {p} := (Function.iterate_succ_apply' _ _ _).symm
      _ = (growStep fg)^[j] {p} := heq
  · push_neg at hstab
    have hgrow : ∀ j, j ≤ fg.card → j + 1 ≤ ((growStep fg)^[j] {p}).card := by
      intro j
      induction j with
      | zero =>
        intro _
        simp
      | succ i ih =>
        intro hle
        have hi := ih (by omega)
        have hssub : (growStep fg)^[i] {p} ⊂ (growStep fg)^[i + 1] {p} :=
          Finset.ssubset_iff_subset_ne.mpr
            ⟨iterate_reach_mono fg p i, fun h => hstab i (by omega) h.symm⟩
        have hlt := Finset.card_lt_card hssub
        omega
    have h1 := hgrow fg.card (le_refl _)
    have h2 : ((growStep fg)^[fg.card] {p}).card ≤ fg.card :=
      Finset.card_le_card (iterate_reach_subset fg p hp fg.card)
    omega

theorem mem_of_adj_fixpoint {fg S : Finset (Nat × Nat)} (hfix : growStep fg S = S)
    {a q : Nat × Nat} (ha : a ∈ S) (hq : q ∈ fg) (hadj : adj8 a q = true) : q ∈ S := by
  rw [← hfix]
  unfold growStep
  exact Finset.mem_union_right _ (Finset.mem_filter.mpr ⟨hq, ⟨a, ha, hadj⟩⟩)

theorem reach_sound (fg : Finset (Nat × Nat)) (p : Nat × Nat) (hp : p ∈ fg) :
    ∀ k q, q ∈ (growStep fg)^[k] {p} → conn fg p q := by
  intro k
  induction k with
  | zero =>
    intro q hq
    have hqp : q = p := by simpa using hq
    rw [hqp]
    exact Relation.ReflTransGen.refl
  | succ i ih =>
    intro q hq
    rw [Function.iterate_succ_apply'] at hq
    unfold growStep at hq
    rcases Finset.mem_union.mp hq with h1 | h1
    · exact ih q h1
    · rcases Finset.mem_filter.mp h1 with ⟨hqfg, a, ha, hadj⟩
      exact Relation.ReflTransGen.tail (ih a ha)
        ⟨iterate_reach_subset fg p hp i ha, hqfg, hadj⟩

theorem reach_complete (fg : Finset (Nat × Nat)) (p : Nat × Nat) (hp : p ∈ fg)
    {q : Nat × Nat} (hconn : conn fg p q) : q ∈ reach fg p := by
  have hp_reach : ∀ k, p ∈ (growStep fg)^[k] {p} := by
    intro k
    induction k with
    | zero => simp
    | succ i ih =>
      rw [Function.iterate_succ_apply']
      exact subset_growStep fg _ ih
  induction hconn with
  | refl => exact hp_reach fg.card
  | tail hab hbc ih =>
    exact mem_of_adj_fixpoint (reach_fixpoint fg p hp) ih hbc.2.1 hbc.2.2

theorem reach_eq_component (fg : Finset (Nat × Nat)) (p : Nat × Nat) (hp : p ∈ fg) :
    ∀ q, q ∈ reach fg p ↔ (q ∈ fg ∧ conn fg p q) := by
  intro q
  constructor
  · intro hq
    exact ⟨iterate_reach_subset fg p hp fg.card hq, reach_sound fg p hp fg.card q hq⟩
  · rintro ⟨hqfg, hconn⟩
    exact reach_complete fg p hp hconn

theorem untop_min_le {s : Finset Nat} {x : Nat} (hx : x ∈ s) : s.min.untop' 0 ≤ x := by
  have h := Finset.min_le hx
  cases hmin : s.min with
  | top =>
    rw [hmin] at h
    exact absurd h (by simp)
  | coe a =>
    rw [hmin] at h
    simpa using h

theorem le_unbot_max {s : Finset Nat} {x : Nat} (hx : x ∈ s) : x ≤ s.max.unbot' 0 := by
  have h := Finset.le_max hx
  cases hmax : s.max with
  | bot =>
    rw [hmax] at h
    exact absurd h (by simp)
  | coe a =>
    rw [hmax] at h
    simpa using h

theorem card_le_boxArea (comp : Finset (Nat × Nat)) : comp.card ≤ boxArea (bboxOf comp) := by
  set rmin := (comp.image Prod.fst).min.untop' 0 with hrmin
  set rmax := (comp.image Prod.fst).max.unbot' 0 with hrmax
  set cmin := (comp.image Prod.snd).min.untop' 0 with hcmin
  set cmax := (comp.image Prod.snd).max.unbot' 0 with hcmax
  have hsub : comp ⊆ (Finset.Icc rmin rmax) ×ˢ (Finset.Icc cmin cmax) := by
    intro q hq
    refine Finset.mem_product.mpr ⟨Finset.mem_Icc.mpr ⟨?_, ?_⟩, Finset.mem_Icc.mpr ⟨?_, ?_⟩⟩
    · exact untop_min_le (Finset.mem_image_of_mem Prod.fst hq)
    · exact le_unbot_max (Finset.mem_image_of_mem Prod.fst hq)
    · exact untop_min_le (Finset.mem_image_of_mem Prod.snd hq)
    · exact le_unbot_max (Finset.mem_image_of_mem Prod.snd hq)
  have hcard := Finset.card_le_card hsub
  rw [Finset.card_product, Nat.card_Icc, Nat.card_Icc] at hcard
  have harea : boxArea (bboxOf comp) = (cmax + 1 - cmin) * (rmax + 1 - rmin) := rfl
  rw [harea, Nat.mul_comm]
  exact hcard

theorem mask_to_bboxes_spec (mask : List (List Nat)) (k : Nat) :
    ∀ b ∈ mask_to_bboxes mask k,
      ∃ p ∈ foregroundPixels mask,
        k ≤ (reach (foregroundPixels mask) p).card ∧
        b = bboxOf (reach (foregroundPixels mask) p) := by
  have hfold : ∀ (l : List (Nat × Nat)) (acc : Finset (Nat × Nat) × List (List Nat)),
      (∀ x ∈ l, x ∈ foregroundPixels mask) →
      (∀ b ∈ acc.2, ∃ p ∈ foregroundPixels mask,
        k ≤ (reach (foregroundPixels mask) p).card ∧
        b = bboxOf (reach (foregroundPixels mask) p)) →
      ∀ b ∈ (l.foldl (fun acc p =>
          if p ∈ acc.1 then acc
          else (acc.1 ∪ reach (foregroundPixels mask) p,
            if k ≤ (reach (foregroundPixels mask) p).card
            then acc.2 ++ [bboxOf (reach (foregroundPixels mask) p)] else acc.2)) acc).2,
        ∃ p ∈ foregroundPixels mask, k ≤ (reach (foregroundPixels mask) p).card ∧
          b = bboxOf (reach (foregroundPixels mask) p) := by
    intro l
    induction l with
    | nil =>
      intro acc hl hacc b hb
      exact hacc b hb
    | cons x xs ih =>
      intro acc hl hacc b hb
      rw [List.foldl_cons] at hb
      refine ih _ (fun y hy => hl y (List.mem_cons_of_mem x hy)) ?_ b hb
      intro b2 hb2
      by_cases hx : x ∈ acc.1
      · rw [if_pos hx] at hb2
        exact hacc b2 hb2
      · rw [if_neg hx] at hb2
        dsimp only at hb2
        by_cases hk : k ≤ (reach (foregroundPixels mask) x).card
        · rw [if_pos hk] at hb2
          rcases List.mem_append.mp hb2 with h2 | h2
          · exact hacc b2 h2
          · rcases List.mem_singleton.mp h2 with rfl
            exact ⟨x, hl x (List.mem_cons_self x xs), hk, rfl⟩
        · rw [if_neg hk] at hb2
          exact hacc b2 hb2
  intro b hb
  refine hfold (rasterPixels mask) (∅, []) ?_ ?_ b hb
  · intro x hx
    exact List.mem_toFinset.mpr hx
  · intro b2 hb2
    simp at hb2

theorem rasterPixels_eq_nil (mask : List (List Nat)) (h : ∀ row ∈ mask, ∀ v ∈ row, v = 0) :
    rasterPixels mask = [] := by
  apply List.eq_nil_iff_forall_not_mem.mpr
  intro x hx
  unfold rasterPixels at hx
  rcases List.mem_flatMap.mp hx with ⟨r, hr, hx2⟩
  rcases List.mem_filterMap.mp hx2 with ⟨c, hc, hfc⟩
  by_cases hpos : 0 < (mask.getD r []).getD c 0
  · have hrow : mask.getD r [] ∈ mask := getD_mem mask r [] (List.mem_range.mp hr)
    have hval := h _ hrow _ (getD_mem _ c 0 (List.mem_range.mp hc))
    omega
  · rw [if_neg hpos] at hfc
    exact Option.noConfusion hfc

theorem mask_to_bboxes_zero (mask : List (List Nat)) (k : Nat)
    (h : ∀ row ∈ mask, ∀ v ∈ row, v = 0) : mask_to_bboxes mask k = [] := by
  unfold mask_to_bboxes
  rw [rasterPixels_eq_nil mask h]
  rfl

/-- C6 (amended): every box returned by `mask_to_bboxes` is the bounding
box of an (8-)connected component of the mask's foreground with at least
`min_area` pixels (no component below the threshold ever yields a box);
an all-zero mask yields the empty list, not an error; and each returned
box's area is at least its component's pixel count — the original claim's
converse inequality (union of box areas bounded by the foreground count)
is false, as the diagonal-component counterexample shows. -/
theorem C6_region_extraction (mask : List (List Nat)) (k : Nat) :
    (∀ b ∈ mask_to_bboxes mask k,
      ∃ comp : Finset (Nat × Nat), IsComponentOf comp (foregroundPixels mask) ∧
        k ≤ comp.card ∧ b = bboxOf comp ∧ comp.card ≤ boxArea b) ∧
    ((∀ row ∈ mask, ∀ v ∈ row, v = 0) → mask_to_bboxes mask k = []) := by
  constructor
  · intro b hb
    rcases mask_to_bboxes_spec mask k b hb with ⟨p, hp, hk, rfl⟩
    exact ⟨reach (foregroundPixels mask) p,
      ⟨p, hp, reach_eq_component (foregroundPixels mask) p hp⟩, hk, rfl,
      card_le_boxArea _⟩
  · exact mask_to_bboxes_zero mask k

/-- Witness for C6 (amended): a 2-pixel horizontal bar passes the
`min_area = 2` filter and yields its bounding box, and the all-zero mask
yields no boxes. -/
theorem C6_region_extraction_witness :
    (∃ comp : Finset (Nat × Nat),
      IsComponentOf comp (foregroundPixels [[1, 1], [0, 0]]) ∧
        2 ≤ comp.card ∧ ([0, 0, 2, 1] : List Nat) = bboxOf comp ∧
        comp.card ≤ boxArea [0, 0, 2, 1]) ∧
    mask_to_bboxes [[0, 0], [0, 0]] 1 = [] :=
  ⟨(C6_region_extraction [[1, 1], [0, 0]] 2).1 [0, 0, 2, 1] (by decide),
    (C6_region_extraction [[0, 0], [0, 0]] 1).2 (by decide)⟩

/-- C6 counterexample: on the diagonal mask [[1,0],[0,1]] the two
foreground pixels form one 8-connected component (skimage's default
connectivity), whose bounding box covers 4 pixels while the mask has only
2 foreground pixels — the box-area union exceeds the foreground count,
refuting the claim's third conjunct. -/
theorem C6_counterexample :
    mask_to_bboxes [[1, 0], [0, 1]] 1 = [[0, 0, 2, 2]] ∧
    boxArea [0, 0, 2, 2] = 4 ∧
    (foregroundPixels [[1, 0], [0, 1]]).card = 2 ∧
    ¬ (boxArea [0, 0, 2, 2] ≤ (foregroundPixels [[1, 0], [0, 1]]).card) :=
  ⟨by decide, by decide, by decide, by decide⟩

/-! ## Claim theorems on the pipeline orchestrator (claim C3) -/

theorem except_bind_ok {α β : Type} (a : α) (f : α → Except String β) :
    (Except.ok a >>= f) = f a := rfl

theorem except_bind_error {α β : Type} (e : String) (f : α → Except String β) :
    ((Except.error e : Except String α) >>= f) = Except.error e := rfl

theorem except_ok_of_bind {α β : Type} {x : Except String α} {f : α → Except String β}
    {b : β} (h : (x >>= f) = Except.ok b) : ∃ a, x = Except.ok a ∧ f a = Except.ok b := by
  cases x with
  | error e =>
    rw [except_bind_error] at h
    exact absurd h (by simp)
  | ok a => exact ⟨a, rfl, h⟩

/-- C3 (amended): for every configuration, fitted model and sample that the
per-sample pipeline body processes successfully, the semantic-label and
evidence fields of the result are those of `infer_defect_label` invoked
with the Python default arguments `anomaly_score = 0`, `bbox_count = 0`,
`mask_ratio = 0` — the orchestrator passes only the category, label set,
unknown label, fixed ROI note and the image, not the computed score or the
extracted geometry (`mask_ratio` is never even computed). -/
theorem C3_labeler_invocation (cfg : PipelineCfg) (model : MeanDiffModel) (base : String)
    (image : Arr3) (rt : Bool) (mt : String) (o : ParseOutcome) (res : PipelineResult)
    (h : run_pipeline_sample cfg model base image rt mt o = Except.ok res) :
    res.defect_label = (infer_defect_label cfg.category
      ((cfg.labels.lookup cfg.category).getD []) cfg.unknown_label
      ("NEEDED FROM USER: ROI selection not implemented.") (some ()) 0 0 0 rt mt
      o).defect_label ∧
    res.evidence = (infer_defect_label cfg.category
      ((cfg.labels.lookup cfg.category).getD []) cfg.unknown_label
      ("NEEDED FROM USER: ROI selection not implemented.") (some ()) 0 0 0 rt mt
      o).evidence := by
  unfold run_pipeline_sample at h
  obtain ⟨sh, h1, h⟩ := except_ok_of_bind h
  obtain ⟨hm_n, h2, h⟩ := except_ok_of_bind h
  obtain ⟨mask, h3, h⟩ := except_ok_of_bind h
  obtain ⟨conf, h4, h⟩ := except_ok_of_bind h
  injection h with hres
  rw [← hres]
  exact ⟨rfl, rfl⟩

/-- Evaluation of the per-sample pipeline body on a concrete fitted model
(mean 0, std 1, shape 1×1×1) and a strongly deviant 1×1 image of value
100: the raw anomaly score is 100000000/1000001 (≈ 100), one box is
extracted, yet the result's label is the unknown label because the labeler
was invoked with the default zero score and geometry. -/
theorem run_pipeline_sample_concrete :
    run_pipeline_sample
      (PipelineCfg.mk ("bottle") [("bottle", ["crack"])] ("UNKNOWN") [] [] none none none
        ("minmax") ("fixed") 0 (199/2) 1 1 ("min") (9/10) ("artifacts"))
      (MeanDiffModel.mk (1/1000000) (some [[[0]]]) (some [[[1]]]) (some (1, 1, 1)))
      ("img1") [[[100]]] false ("") ParseOutcome.fail =
    Except.ok (PipelineResult.mk ("img1") ("bottle") ("anomalous") (100000000/1000001)
      ("artifacts/heatmaps/img1_hm.png") ("artifacts/masks/img1_mask.png") [[0, 0, 1, 1]]
      ("UNKNOWN")
      ["No clear anomaly regions detected.",
       "Full VLM runtime unavailable; fallback semantic classifier used.",
       "NEEDED FROM USER: ROI selection not implemented."]
      none none none (1/4) true) := by
  have hinfer : (MeanDiffModel.mk (1/1000000) (some [[[0]]]) (some [[[1]]])
      (some (1, 1, 1))).infer [[[100]]] =
      Except.ok (100000000/1000001, [[100000000/1000001]]) := by
    unfold MeanDiffModel.infer MeanDiffModel.inferSt
    dsimp only
    rw [if_neg (by decide)]
    dsimp only [zip3With]
    rw [abs_of_nonneg (by norm_num : (0 : Rat) ≤ 100 - 0)]
    norm_num [maxListRat]
  have hnorm : normalize_heatmap [[100000000/1000001]] ("minmax") = Except.ok [[0]] := by
    unfold normalize_heatmap
    rw [if_pos (by decide)]
    dsimp only
    rw [if_pos (by norm_num [minListRat, maxListRat])]
    rfl
  have hthr : threshold_heatmap [[0]] ("fixed") 0 (199/2) = Except.ok [[1]] := by
    unfold threshold_heatmap
    rw [if_pos (by decide)]
    norm_num
  have hbox : mask_to_bboxes [[1]] 1 = [[0, 0, 1, 1]] := by decide
  have hlook : ((([("bottle", ["crack"])] : List (String × List String)).lookup
      ("bottle")).getD []) = ["crack"] := by decide
  have hvlm : infer_defect_label ("bottle") ["crack"] ("UNKNOWN")
      ("NEEDED FROM USER: ROI selection not implemented.") (some ()) 0 0 0 false ("")
      ParseOutcome.fail =
      VLMResult.mk ("UNKNOWN")
        ["No clear anomaly regions detected.",
         "Full VLM runtime unavailable; fallback semantic classifier used.",
         "NEEDED FROM USER: ROI selection not implemented."] (1/4) := by
    norm_num [infer_defect_label, heuristic_vlm_fallback]
  have hcomb : combine_confidence
      (if (0 : Rat) < 1 then min 1 (100000000/1000001 / 1) else 0) (1/4) ("min") =
      Except.ok (1/4) := by
    unfold combine_confidence
    rw [if_pos (by norm_num), if_pos (by decide)]
    norm_num [min_def]
  unfold run_pipeline_sample
  rw [hinfer, except_bind_ok]
  try dsimp only
  rw [hnorm, except_bind_ok]
  try dsimp only
  rw [hthr, except_bind_ok]
  try dsimp only
  rw [hbox, hlook, hvlm]
  try dsimp only
  rw [hcomb, except_bind_ok]
  try dsimp only
  rw [if_pos (by norm_num : (1 : Rat) ≤ 100000000/1000001)]
  rfl

/-- Witness for C3 (amended) at the concrete pipeline run. -/
theorem C3_labeler_invocation_witness :
    (PipelineResult.mk ("img1") ("bottle") ("anomalous") (100000000/1000001)
      ("artifacts/heatmaps/img1_hm.png") ("artifacts/masks/img1_mask.png") [[0, 0, 1, 1]]
      ("UNKNOWN")
      ["No clear anomaly regions detected.",
       "Full VLM runtime unavailable; fallback semantic classifier used.",
       "NEEDED FROM USER: ROI selection not implemented."]
      none none none (1/4) true).defect_label =
      (infer_defect_label ("bottle") ["crack"] ("UNKNOWN")
        ("NEEDED FROM USER: ROI selection not implemented.") (some ()) 0 0 0 false ("")
        ParseOutcome.fail).defect_label ∧
    (PipelineResult.mk ("img1") ("bottle") ("anomalous") (100000000/1000001)
      ("artifacts/heatmaps/img1_hm.png") ("artifacts/masks/img1_mask.png") [[0, 0, 1, 1]]
      ("UNKNOWN")
      ["No clear anomaly regions detected.",
       "Full VLM runtime unavailable; fallback semantic classifier used.",
       "NEEDED FROM USER: ROI selection not implemented."]
      none none none (1/4) true).evidence =
      (infer_defect_label ("bottle") ["crack"] ("UNKNOWN")
        ("NEEDED FROM USER: ROI selection not implemented.") (some ()) 0 0 0 false ("")
        ParseOutcome.fail).evidence :=
  C3_labeler_invocation
    (PipelineCfg.mk ("bottle") [("bottle", ["crack"])] ("UNKNOWN") [] [] none none none
      ("minmax") ("fixed") 0 (199/2) 1 1 ("min") (9/10) ("artifacts"))
    (MeanDiffModel.mk (1/1000000) (some [[[0]]]) (some [[[1]]]) (some (1, 1, 1)))
    ("img1") [[[100]]] false ("") ParseOutcome.fail _ run_pipeline_sample_concrete

/-- C3 counterexample: on the concrete run above the pipeline's result
carries the unknown label with the labeler having seen score 0 and no
geometry, although the sample's raw anomaly score is 100000000/1000001
(≈ 100) with one extracted box — and invoking the labeler with that actual
score and geometry (bbox_count 1, mask_ratio 1) yields the label "crack"
instead.  The orchestrator therefore does not pass the sample's score and
geometry to the labeler. -/
theorem C3_counterexample :
    run_pipeline_sample
      (PipelineCfg.mk ("bottle") [("bottle", ["crack"])] ("UNKNOWN") [] [] none none none
        ("minmax") ("fixed") 0 (199/2) 1 1 ("min") (9/10) ("artifacts"))
      (MeanDiffModel.mk (1/1000000) (some [[[0]]]) (some [[[1]]]) (some (1, 1, 1)))
      ("img1") [[[100]]] false ("") ParseOutcome.fail =
    Except.ok (PipelineResult.mk ("img1") ("bottle") ("anomalous") (100000000/1000001)
      ("artifacts/heatmaps/img1_hm.png") ("artifacts/masks/img1_mask.png") [[0, 0, 1, 1]]
      ("UNKNOWN")
      ["No clear anomaly regions detected.",
       "Full VLM runtime unavailable; fallback semantic classifier used.",
       "NEEDED FROM USER: ROI selection not implemented."]
      none none none (1/4) true) ∧
    (infer_defect_label ("bottle") ["crack"] ("UNKNOWN")
      ("NEEDED FROM USER: ROI selection not implemented.") (some ())
      (100000000/1000001) 1 1 false ("") ParseOutcome.fail).defect_label = "crack" ∧
    ("UNKNOWN" : String) ≠ "crack" := by
  refine ⟨run_pipeline_sample_concrete, ?_, by decide⟩
  norm_num [infer_defect_label, heuristic_vlm_fallback]
  decide
